import Mathlib

/-!
Verification of the scraper pipeline in `scraper/utils.py`.

The development shallowly embeds the five functions of the module —
`normalize_url`, `get_html`, `parse_html`, `process_url`,
`extract_data_from_urls` — together with the parts of their dependencies
that those functions exercise:

* `urllib.parse.urljoin` (with `urlsplit`, `urlparse`, `urlunsplit`,
  `urlunparse`, `_splitparams`, `_splitnetloc`), translated from CPython
  3.11's `urllib/parse.py`;
* the `requests` boundary, as an oracle `Net` giving, per URL, either a
  raised `requests.RequestException` (identified by its dynamic class
  name, which is what `type(e).__name__` observes) or an HTTP response
  (status code and body text); `Response.raise_for_status` raises
  `HTTPError` exactly for status codes 400–599;
* BeautifulSoup documents, as ordered trees of element/text nodes
  carrying the two attributes the code reads (`id` and `href`), with
  `find`, `find_parent`, `find_all(href=True)`, `Tag.string` and
  `get_text(strip=True)` modelled on bs4's semantics; the HTML-string →
  tree step (`BeautifulSoup(html, "html.parser")`, total: the lenient
  parser never raises) is an oracle `String → List Node`;
* the `ThreadPoolExecutor` batch: per-URL tasks are deterministic given
  the network oracle, tasks write their results into slots indexed by
  input position, and `list(executor.map(...))` reads the slots in input
  order, re-raising the first per-task exception in input order.
  `ThreadPoolExecutor(max_workers=w)` raises `ValueError` for `w ≤ 0`.

Python exceptions escaping a modelled function are made explicit with
`Except String`, the exception's class name as the payload.
-/

/-! ### Python string primitives used by the code under study -/

/-- Python `s.rstrip(c)` for a single-character strip set: removes every
trailing occurrence of `c` (not just one). -/
def rstripChar (c : Char) (s : String) : String :=
  ⟨(s.data.reverse.dropWhile (fun x => x = c)).reverse⟩

/-- Index of the first occurrence of `c` in `s` (Python `s.find(c)`,
with `none` for `-1`). -/
def strFind (s : String) (c : Char) : Option Nat :=
  s.data.findIdx? (fun x => x = c)

/-- Index of the first occurrence of `c` in `s` at position `start` or
later (Python `s.find(c, start)`, with `none` for `-1`). -/
def strFindFrom (s : String) (c : Char) (start : Nat) : Option Nat :=
  match (s.data.drop start).findIdx? (fun x => x = c) with
  | some j => some (start + j)
  | none => none

/-- Index of the last occurrence of `c` in `s` (Python `s.rfind(c)`,
with `none` for `-1`). -/
def strRFind (s : String) (c : Char) : Option Nat :=
  match s.data.reverse.findIdx? (fun x => x = c) with
  | some j => some (s.data.length - 1 - j)
  | none => none

/-- Python `s[:n]`. -/
def strTake (s : String) (n : Nat) : String :=
  ⟨s.data.take n⟩

/-- Python `s[n:]`. -/
def strDrop (s : String) (n : Nat) : String :=
  ⟨s.data.drop n⟩

/-- Python `c in s` for a single character. -/
def containsChar (s : String) (c : Char) : Bool :=
  s.data.contains c

/-- Python `s.split(c, 1)`: the part before the first occurrence of `c`
and the part after it (`(s, "")` when `c` does not occur). -/
def splitOnceChar (c : Char) (s : String) : String × String :=
  match strFind s c with
  | some i => (strTake s i, strDrop s (i + 1))
  | none => (s, "")

/-- Splits a character list at every occurrence of `c`, Python
`str.split(c)` style: the result is always nonempty, and adjacent
separators yield empty pieces. -/
def splitCharList (c : Char) : List Char → List (List Char)
  | [] => [[]]
  | x :: xs =>
    match splitCharList c xs with
    | [] => [[]]
    | h :: t => if x = c then [] :: h :: t else (x :: h) :: t

/-- Python `s.split(c)` for one-character separators. -/
def splitChar (c : Char) (s : String) : List String :=
  (splitCharList c s.data).map (fun l => ⟨l⟩)

/-- Python `"/".join(parts)`. -/
def joinSlash : List String → String
  | [] => ""
  | [s] => s
  | s :: rest => s ++ "/" ++ joinSlash rest

/-- Whitespace test backing Python `str.strip()` with no argument
(space, tab, newline, carriage return cover every character the code's
inputs use). -/
def isWSChar (c : Char) : Bool :=
  c.isWhitespace

/-- Python `s.strip()`: removes leading and trailing whitespace. -/
def stripWS (s : String) : String :=
  ⟨((s.data.dropWhile isWSChar).reverse.dropWhile isWSChar).reverse⟩

/-- Membership in `_WHATWG_C0_CONTROL_OR_SPACE` (code points 0–0x20),
the strip set `urlsplit` applies to its URL and scheme arguments. -/
def isC0OrSpace (c : Char) : Bool :=
  c.val ≤ 0x20

/-- The `url.lstrip(_WHATWG_C0_CONTROL_OR_SPACE)` step of `urlsplit`. -/
def lstripC0 (s : String) : String :=
  ⟨s.data.dropWhile isC0OrSpace⟩

/-- The `scheme.strip(_WHATWG_C0_CONTROL_OR_SPACE)` step of `urlsplit`. -/
def stripC0 (s : String) : String :=
  ⟨((s.data.dropWhile isC0OrSpace).reverse.dropWhile isC0OrSpace).reverse⟩

/-- The `url.replace(b, "")` loop of `urlsplit` over
`_UNSAFE_URL_BYTES_TO_REMOVE = ["\t", "\r", "\n"]`. -/
def removeUnsafeBytes (s : String) : String :=
  ⟨s.data.filter (fun c => !(c == '\t' || c == '\r' || c == '\n'))⟩

/-- Python `s.lower()` restricted to ASCII, which is all `urlsplit`
lowercases (scheme characters are ASCII by construction). -/
def lowerAscii (s : String) : String :=
  ⟨s.data.map Char.toLower⟩

/-! ### `urllib.parse`: scheme tables, `urlsplit`, `urlparse` -/

/-- `urllib.parse.uses_relative` (CPython 3.11). -/
def uses_relative : List String :=
  ["", "ftp", "http", "gopher", "nntp", "imap",
   "wais", "file", "https", "shttp", "mms",
   "prospero", "rtsp", "rtsps", "rtspu", "sftp",
   "svn", "svn+ssh", "ws", "wss"]

/-- `urllib.parse.uses_netloc` (CPython 3.11). -/
def uses_netloc : List String :=
  ["", "ftp", "http", "gopher", "nntp", "telnet",
   "imap", "wais", "file", "mms", "https", "shttp",
   "snews", "prospero", "rtsp", "rtsps", "rtspu", "rsync",
   "svn", "svn+ssh", "sftp", "nfs", "git", "git+ssh",
   "ws", "wss"]

/-- `urllib.parse.uses_params` (CPython 3.11). -/
def uses_params : List String :=
  ["", "ftp", "hdl", "prospero", "http", "imap",
   "https", "shttp", "rtsp", "rtsps", "rtspu", "sip",
   "sips", "mms", "sftp", "tel"]

/-- `urllib.parse.scheme_chars`. -/
def scheme_chars : String :=
  "abcdefghijklmnopqrstuvwxyzABCDEFGHIJKLMNOPQRSTUVWXYZ0123456789+-."

/-- Result of `urlsplit`: `<scheme>://<netloc>/<path>?<query>#<fragment>`. -/
structure SplitResult where
  scheme : String
  netloc : String
  path : String
  query : String
  fragment : String
deriving DecidableEq, Repr

/-- Result of `urlparse`: `urlsplit` with `;params` split off the path. -/
structure ParseResult where
  scheme : String
  netloc : String
  path : String
  params : String
  query : String
  fragment : String
deriving DecidableEq, Repr

/-- `urllib.parse._splitnetloc(url, 2)`: the network-location part of
`url` after the leading `//` runs up to the first `/`, `?` or `#`. -/
def splitnetloc (s : String) : String × String :=
  let rest := s.data.drop 2
  let netloc := rest.takeWhile (fun c => !(c == '/' || c == '?' || c == '#'))
  (⟨netloc⟩, ⟨rest.drop netloc.length⟩)

/-- Scheme recognition of `urlsplit`: a colon at a positive index, an
ASCII-alphabetic first character, and every character before the colon
drawn from `scheme_chars`. -/
def schemeSplit (url : String) : Option (String × String) :=
  match strFind url ':' with
  | some i =>
    if 0 < i ∧ (url.data.headD ' ').isAlpha ∧ (url.data.headD ' ').val ≤ 0x7f
        ∧ (url.data.take i).all (fun c => containsChar scheme_chars c) then
      some (lowerAscii (strTake url i), strDrop url (i + 1))
    else none
  | none => none

/-- `urllib.parse.urlsplit(url, scheme)` with `allow_fragments=True`
(the only form `urljoin` uses).  The IPv6-bracket and netloc validation
`ValueError`s are not modelled: no input in this development contains
`[`, `]` or non-ASCII netloc characters. -/
def urlsplit (url scheme : String) : SplitResult :=
  let url := removeUnsafeBytes (lstripC0 url)
  let scheme := removeUnsafeBytes (stripC0 scheme)
  let (scheme, url) :=
    match schemeSplit url with
    | some (sc, rest) => (sc, rest)
    | none => (scheme, url)
  let (netloc, url) :=
    if url.data.take 2 = ['/', '/'] then splitnetloc url else ("", url)
  let (url, fragment) := if containsChar url '#' then splitOnceChar '#' url else (url, "")
  let (url, query) := if containsChar url '?' then splitOnceChar '?' url else (url, "")
  ⟨scheme, netloc, url, query, fragment⟩

/-- `urllib.parse._splitparams`, reached only when `;` occurs in the
path: with a `/` present the `;` is sought after the last `/`. -/
def splitparams (u : String) : String × String :=
  let i? :=
    if containsChar u '/' then strFindFrom u ';' ((strRFind u '/').getD 0)
    else strFind u ';'
  match i? with
  | some i => (strTake u i, strDrop u (i + 1))
  | none => (u, "")

/-- `urllib.parse.urlparse(url, scheme)` with `allow_fragments=True`. -/
def urlparse (url scheme : String) : ParseResult :=
  let s := urlsplit url scheme
  let (path, params) :=
    if uses_params.contains s.scheme ∧ containsChar s.path ';' then splitparams s.path
    else (s.path, "")
  ⟨s.scheme, s.netloc, path, params, s.query, s.fragment⟩

/-- `urllib.parse.urlunsplit` (CPython 3.11 form of the netloc guard). -/
def urlunsplit (scheme netloc path query fragment : String) : String :=
  let url := path
  let url :=
    if netloc ≠ "" ∨ (scheme ≠ "" ∧ uses_netloc.contains scheme ∧ url.data.take 2 ≠ ['/', '/'])
    then
      let url := if url ≠ "" ∧ url.data.headD ' ' ≠ '/' then "/" ++ url else url
      "//" ++ netloc ++ url
    else url
  let url := if scheme ≠ "" then scheme ++ ":" ++ url else url
  let url := if query ≠ "" then url ++ "?" ++ query else url
  if fragment ≠ "" then url ++ "#" ++ fragment else url

/-- `urllib.parse.urlunparse`. -/
def urlunparse (p : ParseResult) : String :=
  let path := if p.params ≠ "" then p.path ++ ";" ++ p.params else p.path
  urlunsplit p.scheme p.netloc path p.query p.fragment

/-- The `segments[1:-1] = filter(None, segments[1:-1])` step of
`urljoin`: empty segments are dropped from every position except the
first and the last. -/
def filterMidEmpty : List String → List String
  | [] => []
  | [a] => [a]
  | a :: b :: bs => a :: (((b :: bs).dropLast.filter (fun s => s ≠ "")) ++ [(b :: bs).getLast!])

/-- The segment-resolution loop of `urljoin`: `..` pops (ignored on an
empty stack), `.` is skipped, anything else is pushed. -/
def resolveSegments (segments : List String) : List String :=
  segments.foldl
    (fun acc seg =>
      if seg = ".." then acc.dropLast
      else if seg = "." then acc
      else acc ++ [seg])
    []

/-- `urllib.parse.urljoin(base, url)` (CPython 3.11,
`allow_fragments=True`). -/
def urljoin (base url : String) : String :=
  if base = "" then url
  else if url = "" then base
  else
    let b := urlparse base ""
    let u := urlparse url b.scheme
    if u.scheme ≠ b.scheme ∨ ¬ uses_relative.contains u.scheme then url
    else if uses_netloc.contains u.scheme ∧ u.netloc ≠ "" then
      urlunparse ⟨u.scheme, u.netloc, u.path, u.params, u.query, u.fragment⟩
    else
      let netloc := if uses_netloc.contains u.scheme then b.netloc else u.netloc
      if u.path = "" ∧ u.params = "" then
        urlunparse ⟨u.scheme, netloc, b.path, b.params,
                    (if u.query = "" then b.query else u.query), u.fragment⟩
      else
        let base_parts := splitChar '/' b.path
        let base_parts := if base_parts.getLast! ≠ "" then base_parts.dropLast else base_parts
        let segments :=
          if u.path.data.headD ' ' = '/' then splitChar '/' u.path
          else filterMidEmpty (base_parts ++ splitChar '/' u.path)
        let resolved := resolveSegments segments
        let resolved :=
          if segments.getLast! = "." ∨ segments.getLast! = ".." then resolved ++ [""]
          else resolved
        urlunparse ⟨u.scheme, netloc,
                    (if joinSlash resolved = "" then "/" else joinSlash resolved),
                    u.params, u.query, u.fragment⟩

/-! ### `scraper.utils.normalize_url` -/

/-- `normalize_url(url, base_url)`:
`urljoin(base_url.rstrip('/'), url).rstrip('/')`. -/
def normalize_url (url : String) (base_url : String) : String :=
  rstripChar '/' (urljoin (rstripChar '/' base_url) url)

/-- The normalizer the spec describes for claim C6, written from the
spec's words for comparison with `normalize_url`: trim at most ONE
trailing `/` from the base before joining and at most one from the
joined result. -/
def rstripOneChar (c : Char) (s : String) : String :=
  match s.data.reverse with
  | x :: rest => if x = c then ⟨rest.reverse⟩ else s
  | [] => s

/-- Claim C6's reading of the normalizer (spec words, single-trim). -/
def normalize_url_one_trim (url : String) (base_url : String) : String :=
  rstripOneChar '/' (urljoin (rstripOneChar '/' base_url) url)

/-! ### The `requests` boundary and `scraper.utils.get_html` -/

/-- A raised `requests.RequestException`, identified by the name of its
dynamic class — exactly the datum `type(e).__name__` extracts.  Concrete
subclasses raised by `requests.get` include `ConnectTimeout`,
`ReadTimeout`, `ConnectionError`, `InvalidURL`, `MissingSchema`,
`TooManyRedirects`; `Response.raise_for_status` raises `HTTPError`. -/
structure ReqExn where
  typeName : String
deriving DecidableEq, Repr

/-- What the network does for one `requests.get(url, timeout=10)` call:
either some `RequestException` is raised, or a response with a status
code and a body (`Response.text`) comes back. -/
inductive NetResult where
  | exn (e : ReqExn)
  | resp (status : Nat) (body : String)
deriving DecidableEq, Repr

/-- A deterministic network oracle: per-URL behavior of `requests.get`. -/
abbrev Net := String → NetResult

/-- The dictionary `get_html` returns:
`{'url': ..., 'error': ..., 'html': ...}`. -/
structure FetchResp where
  url : String
  error : Option String
  html : Option String
deriving DecidableEq, Repr

/-- `Response.raise_for_status` raises `HTTPError` exactly for status
codes 400–599 (client and server errors). -/
def raisesForStatus (status : Nat) : Bool :=
  400 ≤ status && status < 600

/-- `get_html(url)`: issue the request; `raise_for_status`; store the
body text.  Any `requests.RequestException` — and every modelled
failure is one — is caught and recorded as its class name; the function
itself never raises. -/
def get_html (net : Net) (url : String) : FetchResp :=
  match net url with
  | .exn e => { url := url, error := some e.typeName, html := none }
  | .resp status body =>
    if raisesForStatus status then
      { url := url, error := some "HTTPError", html := none }
    else
      { url := url, error := none, html := some body }

/-! ### BeautifulSoup documents and `scraper.utils.parse_html` -/

/-- A node of a parsed HTML tree: a text node (`NavigableString`) or an
element with its tag name, its `id` and `href` attributes (the only two
the code reads) and its children in document order. -/
inductive Node where
  | text (s : String)
  | elem (tag : String) (idAttr : Option String) (href : Option String) (children : List Node)
deriving Repr

/-- Tag name of an element node (`Tag.name`); `""` for a text node. -/
def tagOf : Node → String
  | .text _ => ""
  | .elem t _ _ _ => t

/-- The `href` attribute, when the node is an element carrying one. -/
def hrefAttr : Node → Option String
  | .text _ => none
  | .elem _ _ h _ => h

mutual

/-- The `NavigableString` values below a node, in document order
(bs4's `Tag.descendants` filtered to strings). -/
def nodeTexts : Node → List String
  | .text s => [s]
  | .elem _ _ _ cs => forestTexts cs

/-- String descendants of a forest, in document order. -/
def forestTexts : List Node → List String
  | [] => []
  | n :: ns => nodeTexts n ++ forestTexts ns

end

/-- bs4 `Tag.get_text(strip=True)`: each descendant string stripped,
empty results skipped, the rest concatenated. -/
def getTextStrip (n : Node) : String :=
  String.join ((nodeTexts n).map stripWS |>.filter (fun s => s ≠ ""))

/-- bs4 `Tag.string`: the single string child, recursing through a
single element child; `none` when there is not exactly one child. -/
def nodeString : Node → Option String
  | .text s => some s
  | .elem _ _ _ [c] => nodeString c
  | .elem _ _ _ _ => none

/-- Does `needle` occur as a contiguous substring of `hay`? -/
def containsSub (needle hay : String) : Bool :=
  go needle.data hay.data
where
  go (n : List Char) : List Char → Bool
    | [] => n.isEmpty
    | c :: cs => n.isPrefixOf (c :: cs) || go n cs

/-- The text filter `re.compile('विधुतीय|विद्युतीय', re.IGNORECASE)`
applied by `find` to a tag's `.string`: `regex.search` succeeds when
either alternative occurs as a substring (Devanagari has no case), and
a tag whose `.string` is `None` never matches. -/
def matchesKeyword : Option String → Bool
  | none => false
  | some s => containsSub "विधुतीय" s || containsSub "विद्युतीय" s

mutual

/-- bs4 `soup.find('div', id=i)`: first element in document order
(preorder) with tag `div` and an `id` attribute equal to `i`. -/
def findDivById (i : String) : Node → Option Node
  | .text _ => none
  | .elem tag idAttr href cs =>
    if tag = "div" ∧ idAttr = some i then some (.elem tag idAttr href cs)
    else findDivByIdForest i cs

/-- `findDivById` over a forest, first match in document order. -/
def findDivByIdForest (i : String) : List Node → Option Node
  | [] => none
  | n :: ns =>
    match findDivById i n with
    | some r => some r
    | none => findDivByIdForest i ns

end

mutual

/-- The combination `soup.find('a', text=keyword-regex)` followed by
`found.find_parent('li')`: for the first anchor in document order whose
`.string` matches the keyword regex, return it with its nearest
ancestor whose tag is `li` (`none` when no `li` encloses it).  `anc`
is the ancestor stack, innermost first. -/
def findKwAnchor (anc : List Node) : Node → Option (Node × Option Node)
  | .text _ => none
  | .elem tag idAttr href cs =>
    let self := Node.elem tag idAttr href cs
    if tag = "a" ∧ matchesKeyword (nodeString self) then
      some (self, anc.find? (fun n => tagOf n = "li"))
    else findKwAnchorForest (self :: anc) cs

/-- `findKwAnchor` over a forest, first match in document order. -/
def findKwAnchorForest (anc : List Node) : List Node → Option (Node × Option Node)
  | [] => none
  | n :: ns =>
    match findKwAnchor anc n with
    | some r => some r
    | none => findKwAnchorForest anc ns

end

mutual

/-- Elements counted by `find_all('a', href=True)` within a subtree
rooted at `n`, including `n` itself: anchors whose `href` attribute is
present (with any value), in document order. -/
def anchorsIn : Node → List Node
  | .text _ => []
  | .elem tag idAttr href cs =>
    (if tag = "a" ∧ href.isSome then [Node.elem tag idAttr href cs] else []) ++
      anchorsInForest cs

/-- `anchorsIn` over a forest, in document order. -/
def anchorsInForest : List Node → List Node
  | [] => []
  | n :: ns => anchorsIn n ++ anchorsInForest ns

end

/-- `region.find_all('a', href=True)`: anchors with an `href` among the
strict descendants of the region. -/
def regionAnchors : Node → List Node
  | .text _ => []
  | .elem _ _ _ cs => anchorsInForest cs

/-- The `href` value of a harvested anchor (`link['href']`; the anchors
delivered by `find_all('a', href=True)` always carry one). -/
def hrefOf (n : Node) : String :=
  (hrefAttr n).getD ""

/-- One candidate of the final list comprehension of `parse_html`. -/
structure ServiceLink where
  service_name : String
  link_of_service : String
deriving DecidableEq, Repr

/-- The list comprehension of `parse_html`: keep the anchors whose
`get_text(strip=True)` and stripped `href` are both nonempty, and build
`{'service_name': ..., 'link_of_service': normalize_url(...)}` from
each. -/
def harvest (base_url : String) (region : Node) : List ServiceLink :=
  ((regionAnchors region).filter
      (fun link => getTextStrip link ≠ "" ∧ stripWS (hrefOf link) ≠ "")).map
    (fun link =>
      { service_name := getTextStrip link
        link_of_service := normalize_url (stripWS (hrefOf link)) base_url })

/-- The selector chain of `parse_html` plus the `find_parent('li')`
escalation: the services `div` if present, else the nearest `li` above
the first keyword anchor.  `ok none` is the no-region case (empty
result); `error "AttributeError"` is the unguarded
`None.find_all` crash when the keyword anchor has no `li` ancestor. -/
def resolveRegion (doc : List Node) : Except String (Option Node) :=
  match findDivByIdForest "block-menu-menu-egov-services" doc with
  | some d => .ok (some d)
  | none =>
    match findKwAnchorForest [] doc with
    | none => .ok none
    | some (_, some li) => .ok (some li)
    | some (_, none) => .error "AttributeError"

/-- Body of `parse_html` after `BeautifulSoup(html, 'html.parser')`:
resolve the region, then harvest it (no region: empty list). -/
def parse_doc (base_url : String) (doc : List Node) : Except String (List ServiceLink) :=
  (resolveRegion doc).map
    (fun region? =>
      match region? with
      | none => []
      | some region => harvest base_url region)

/-- A BeautifulSoup oracle: the total `html.parser` string → tree step. -/
abbrev Soup := String → List Node

/-- `parse_html(base_url, html)`: falsy `html` (absent or empty) yields
`[]` before any parsing; otherwise parse and process the document. -/
def parse_html (bs : Soup) (base_url : String) (html : Option String) :
    Except String (List ServiceLink) :=
  if html.getD "" = "" then .ok []
  else parse_doc base_url (bs (html.getD ""))

/-! ### `scraper.utils.process_url` and `extract_data_from_urls` -/

/-- The value of the single-key dictionary `process_url` returns for a
URL: `{'error': kind}` on a fetch failure, else the parsed list. -/
inductive Outcome where
  | failure (error : String)
  | links (ls : List ServiceLink)
deriving DecidableEq, Repr

/-- The dictionary `{url: outcome}` a worker produces. -/
structure UrlResult where
  url : String
  outcome : Outcome
deriving DecidableEq, Repr

/-- `process_url(url)`: fetch; a truthy `'error'` value short-circuits
to `{url: {'error': ...}}`; otherwise `{url: parse_html(url, html)}`.
An exception escaping `parse_html` escapes `process_url` too. -/
def process_url (net : Net) (bs : Soup) (url : String) : Except String UrlResult :=
  let response := get_html net url
  if response.error.getD "" ≠ "" then
    .ok ⟨url, .failure (response.error.getD "")⟩
  else
    (parse_html bs url response.html).map (fun ls => ⟨url, .links ls⟩)

/-- Iterating `executor.map(f, urls)` inside `list(...)`: the results
are yielded in input order, and a task's stored exception re-raises at
the task's position. -/
def collectMap (f : String → Except String UrlResult) :
    List String → Except String (List UrlResult)
  | [] => .ok []
  | u :: us =>
    match f u with
    | .error e => .error e
    | .ok r => (collectMap f us).map (fun rs => r :: rs)

/-- `extract_data_from_urls(urls, max_workers)`:
`ThreadPoolExecutor(max_workers)` raises `ValueError` for
`max_workers ≤ 0`; otherwise `list(executor.map(process_url, urls))` —
one result per URL in input order, re-raising the first per-task
exception in input order. -/
def extract_data_from_urls (net : Net) (bs : Soup) (urls : List String)
    (max_workers : Int) : Except String (List UrlResult) :=
  if max_workers ≤ 0 then .error "ValueError"
  else collectMap (process_url net bs) urls

/-! ### Completion-order model of the thread pool

`executor.map` submits one task per URL in input order; each task runs
and deposits its outcome in the slot of its input index; iterating the
map's result reads the slots in input index order.  Which worker
finishes first only changes the order in which slots are written. -/

/-- One task completion: task `i` writes `process_url(urls[i])` into
slot `i` (out-of-range indices name no task and write nothing). -/
def poolWrite (f : String → Except String UrlResult) (urls : List String)
    (slots : List (Option (Except String UrlResult))) (i : Nat) :
    List (Option (Except String UrlResult)) :=
  match urls[i]? with
  | some u => slots.set i (some (f u))
  | none => slots

/-- Run every task, completions happening in the order given by
`order`, starting from all-empty slots. -/
def runPool (f : String → Except String UrlResult) (urls : List String)
    (order : List Nat) : List (Option (Except String UrlResult)) :=
  order.foldl (poolWrite f urls) (List.replicate urls.length none)

/-- Read the slots in input index order, as `list(executor.map(...))`
does: the first stored exception re-raises; an unfilled slot (which a
complete run never leaves) blocks as `"PoolIncomplete"`. -/
def gather : List (Option (Except String UrlResult)) → Except String (List UrlResult)
  | [] => .ok []
  | none :: _ => .error "PoolIncomplete"
  | some (.error e) :: _ => .error e
  | some (.ok r) :: rest => (gather rest).map (fun rs => r :: rs)

/-- Did the per-URL task return normally (no exception)? -/
def isOkE : Except String UrlResult → Bool
  | .ok _ => true
  | .error _ => false

/-! ### Concrete documents and oracles used by the claim instances -/

/-- Parsed form of
`<li><a>विद्युतीय सेवा</a><a href="/x">Service X</a></li>`
(claim C9's keyword-fallback scenario: no services-block `div`). -/
def kwLiDoc : List Node :=
  [.elem "li" none none
     [.elem "a" none none [.text "विद्युतीय सेवा"],
      .elem "a" none (some "/x") [.text "Service X"]]]

/-- The C9 scenario with a usable `href` on the keyword anchor itself:
`<li><a href="/y">विद्युतीय सेवा</a><a href="/x">Service X</a></li>`. -/
def kwLiDocHref : List Node :=
  [.elem "li" none none
     [.elem "a" none (some "/y") [.text "विद्युतीय सेवा"],
      .elem "a" none (some "/x") [.text "Service X"]]]

/-- Parsed form of `<p><a>विद्युतीय सेवा</a></p>`: a keyword-matching
anchor with no `li` ancestor and no services-block `div`. -/
def kwNoLiDoc : List Node :=
  [.elem "p" none none [.elem "a" none none [.text "विद्युतीय सेवा"]]]

/-- Parsed form of the spec's concrete id-marker scenario:
`<div id="block-menu-menu-egov-services"><a href="/pay-tax">Pay Tax</a><a href="  ">Bad</a></div>`. -/
def specMarkerDoc : List Node :=
  [.elem "div" (some "block-menu-menu-egov-services") none
     [.elem "a" none (some "/pay-tax") [.text "Pay Tax"],
      .elem "a" none (some "  ") [.text "Bad"]]]

/-- A soup oracle parsing every HTML string to `kwNoLiDoc`. -/
def bsNoLi : Soup := fun _ => kwNoLiDoc

/-- A soup oracle parsing every HTML string to the empty document. -/
def bsEmpty : Soup := fun _ => []

/-- A network on which every URL yields a 404 response. -/
def net404 : Net := fun _ => .resp 404 "Not Found"

/-- A network on which every request exceeds the configured deadline:
`requests.get(url, timeout=10)` raises
`requests.exceptions.ReadTimeout`. -/
def netReadTimeout : Net := fun _ => .exn ⟨"ReadTimeout"⟩

/-- A network on which every URL yields 200 with body `"H"`. -/
def netH : Net := fun _ => .resp 200 "H"

/-- A network on which every URL yields a final 300 response (a
non-2xx status outside `raise_for_status`'s 400–599 range). -/
def net300 : Net := fun _ => .resp 300 "Multiple Choices"

/-- A network on which the URL `"a"` always times out and every other
URL succeeds with an empty body. -/
def netAB : Net := fun u =>
  if u = "a" then .exn ⟨"ConnectTimeout"⟩ else .resp 200 ""

/-- A network on which the URL `"c"` succeeds with the body `"H"` and
every other URL succeeds with an empty body. -/
def netCB : Net := fun u =>
  if u = "c" then .resp 200 "H" else .resp 200 ""

/-! ## Lemmas on trailing-slash trimming -/

/-- Dropping a prefix satisfying `p` twice is the same as once. -/
theorem dropWhile_dropWhile_same {α} (p : α → Bool) (l : List α) :
    (l.dropWhile p).dropWhile p = l.dropWhile p := by
  induction l with
  | nil => rfl
  | cons x xs ih =>
    cases hx : p x with
    | true => rw [List.dropWhile_cons_of_pos hx]; exact ih
    | false => rw [List.dropWhile_cons_of_neg (by simp [hx]), List.dropWhile_cons_of_neg (by simp [hx])]

/-- The head surviving `dropWhile p` falsifies `p`. -/
theorem head?_dropWhile_not {α} (p : α → Bool) (l : List α) :
    ∀ a, (l.dropWhile p).head? = some a → p a = false := by
  induction l with
  | nil => intro a h; simp at h
  | cons x xs ih =>
    intro a h
    cases hx : p x with
    | true => rw [List.dropWhile_cons_of_pos hx] at h; exact ih a h
    | false =>
      rw [List.dropWhile_cons_of_neg (by simp [hx])] at h
      simp only [List.head?_cons, Option.some.injEq] at h
      rw [← h]; exact hx

/-- Unfolding of `rstripChar` at the level of character lists. -/
theorem rstripChar_data (c : Char) (s : String) :
    (rstripChar c s).data = (s.data.reverse.dropWhile (fun x => x = c)).reverse := rfl

/-- Python's `rstrip` is idempotent. -/
theorem rstripChar_idem (c : Char) (s : String) :
    rstripChar c (rstripChar c s) = rstripChar c s :=
  String.ext (by
    rw [rstripChar_data, rstripChar_data, List.reverse_reverse, dropWhile_dropWhile_same])

/-- An extra trailing copy of the stripped character never survives
`rstrip`: the strip removes every trailing occurrence, not one. -/
theorem rstripChar_append_same (c : Char) (s : String) :
    rstripChar c (s ++ ⟨[c]⟩) = rstripChar c s :=
  String.ext (by
    rw [rstripChar_data, rstripChar_data, String.data_append]
    simp only [List.reverse_append, List.reverse_cons, List.reverse_nil, List.nil_append,
      List.singleton_append]
    rw [List.dropWhile_cons_of_pos (by simp)])

/-- The last character left by `rstrip` is never the stripped one. -/
theorem rstripChar_getLast?_ne (c : Char) (s : String) :
    (rstripChar c s).data.getLast? ≠ some c := by
  rw [rstripChar_data, List.getLast?_reverse]
  intro h
  have hc := head?_dropWhile_not (fun x => x = c) s.data.reverse c h
  simp at hc

/-- Claim C6, as the code actually behaves: `normalize_url` removes ALL
trailing slashes from `base_url` before joining (so appending one more
trailing slash to the base never changes the result — a base ending in
two slashes does NOT keep one), and removes ALL trailing slashes from
the joined result (the result never ends in `/`). -/
theorem claim_C6 (url base_url : String) :
    normalize_url url (base_url ++ "/") = normalize_url url base_url ∧
    (normalize_url url base_url).data.getLast? ≠ some '/' := by
  constructor
  · show rstripChar '/' (urljoin (rstripChar '/' (base_url ++ "/")) url) = _
    rw [show (("/" : String)) = (⟨['/']⟩ : String) from rfl, rstripChar_append_same]
    rfl
  · exact rstripChar_getLast?_ne '/' _

/-- Counterexample to claim C6 as stated: on `base = "http://a/b//"`
the claimed single-trim normalizer keeps one of the two trailing
slashes and yields `"http://a/b/x"`, but `normalize_url` strips both
and yields `"http://a/x"`. -/
theorem claim_C6_counterexample :
    normalize_url "x" "http://a/b//" = "http://a/x" ∧
    normalize_url_one_trim "x" "http://a/b//" = "http://a/b/x" ∧
    normalize_url "x" "http://a/b//" ≠ normalize_url_one_trim "x" "http://a/b//" := by
  refine ⟨by decide, by decide, by decide⟩

/-- Claim C7, amended: normalization is idempotent exactly on those
`(u, base)` whose normalized form re-joins to itself against the
trimmed base (true in particular for ordinary absolute results); the
accompanying counterexample shows the unconditional claim fails. -/
theorem claim_C7 (u base : String)
    (h : urljoin (rstripChar '/' base) (normalize_url u base) = normalize_url u base) :
    normalize_url (normalize_url u base) base = normalize_url u base := by
  calc normalize_url (normalize_url u base) base
      = rstripChar '/' (urljoin (rstripChar '/' base) (normalize_url u base)) := rfl
    _ = rstripChar '/' (normalize_url u base) := by rw [h]
    _ = normalize_url u base := rstripChar_idem '/' _

/-- Witness for the amended claim C7 at `u = "x"`,
`base = "http://a/b"`. -/
theorem claim_C7_witness :
    urljoin (rstripChar '/' "http://a/b") (normalize_url "x" "http://a/b")
      = normalize_url "x" "http://a/b" ∧
    normalize_url (normalize_url "x" "http://a/b") "http://a/b"
      = normalize_url "x" "http://a/b" :=
  ⟨by decide, claim_C7 "x" "http://a/b" (by decide)⟩

/-- Counterexample to claim C7 as stated: for the relative reference
`"#/"` against base `"http://a/b"`, the first normalization yields
`"http://a/b#"` (the trailing-slash trim eats the slash inside the
fragment), and renormalizing that drops the now-empty fragment. -/
theorem claim_C7_counterexample :
    normalize_url "#/" "http://a/b" = "http://a/b#" ∧
    normalize_url (normalize_url "#/" "http://a/b") "http://a/b" = "http://a/b" ∧
    normalize_url (normalize_url "#/" "http://a/b") "http://a/b" ≠ normalize_url "#/" "http://a/b" := by
  refine ⟨by decide, by decide, by decide⟩

/-! ## The fetch boundary (claims C3 and C4) -/

/-- Claim C3, amended: `get_html` always returns a record (the only
failure entry points are `requests.RequestException`s, all caught),
the record carries the requested `url`, and exactly one of
`error`/`html` is set; but `error` is set EXACTLY when the request
raised (then it is the exception's class name) or the response status
lies in `raise_for_status`'s 400–599 range (then it is `"HTTPError"`).
Any other response — including non-2xx statuses such as a final 300 —
is returned as a success, its body in `html`, contrary to the original
claim's "non-2xx status is a failure". -/
theorem claim_C3 (net : Net) (url : String) :
    (get_html net url).url = url ∧
    ((get_html net url).error.isSome ↔ (get_html net url).html = none) ∧
    ((get_html net url).error = none ↔
      ∃ s b, net url = .resp s b ∧ raisesForStatus s = false) ∧
    (∀ s b, net url = .resp s b → raisesForStatus s = false →
      (get_html net url).html = some b ∧ (get_html net url).error = none) ∧
    (∀ e, net url = .exn e →
      (get_html net url).error = some e.typeName ∧ (get_html net url).html = none) ∧
    (∀ s b, net url = .resp s b → raisesForStatus s = true →
      (get_html net url).error = some "HTTPError" ∧ (get_html net url).html = none) := by
  cases hn : net url with
  | exn e => simp [get_html, hn]
  | resp status body =>
    by_cases hs : raisesForStatus status = true
    · simp only [get_html, hn, if_pos hs]
      refine ⟨by trivial, by simp, ?_, ?_, ?_, ?_⟩
      · constructor
        · intro h; simp at h
        · intro h
          obtain ⟨s, b, hsb, hraise⟩ := h
          simp only [NetResult.resp.injEq] at hsb
          rw [← hsb.1, hs] at hraise
          simp at hraise
      · intro s b hsb hraise
        simp only [NetResult.resp.injEq] at hsb
        rw [← hsb.1, hs] at hraise
        simp at hraise
      · intro e he; simp at he
      · intro s b hsb hraise
        exact ⟨by trivial, by trivial⟩
    · simp only [get_html, hn, if_neg hs]
      refine ⟨by trivial, by simp, ?_, ?_, ?_, ?_⟩
      · constructor
        · intro h
          exact ⟨status, body, rfl, by simpa using hs⟩
        · intro h; trivial
      · intro s b hsb hraise
        simp only [NetResult.resp.injEq] at hsb
        rw [hsb.2]
        exact ⟨by trivial, by trivial⟩
      · intro e he; simp at he
      · intro s b hsb hraise
        simp only [NetResult.resp.injEq] at hsb
        rw [← hsb.1] at hraise
        exact absurd hraise (by simpa using hs)

/-- Counterexample to claim C3 as stated: a final 300 response — a
non-2xx status, which the claim lists among the failures that must set
`errorKind` and leave `html` unset — is returned by `get_html` as a
success, `error` `None` and `html` carrying the body, because the
code's only status check, `raise_for_status`, raises for 400–599
only. -/
theorem claim_C3_counterexample :
    (get_html net300 "http://a").error = none ∧
    (get_html net300 "http://a").html = some "Multiple Choices" ∧
    ¬ (200 ≤ 300 ∧ 300 < 300) ∧
    raisesForStatus 300 = false :=
  ⟨rfl, rfl, by decide, by decide⟩

/-- Counterexample to claim C4 as stated: a 404 response produces the
error kind `"HTTPError"` (the dynamic class name of the exception
`raise_for_status` raises), which is outside the spec's closed
enumeration and differs from the claimed `"HTTPStatusError"`; a request
that exceeds the deadline produces `"ReadTimeout"`, not `"Timeout"`. -/
theorem claim_C4_counterexample :
    (get_html net404 "http://a").error = some "HTTPError" ∧
    "HTTPError" ∉ ["Timeout", "ConnectionError", "HTTPStatusError",
                   "InvalidURL", "UnknownTransportError"] ∧
    (get_html netReadTimeout "http://a").error = some "ReadTimeout" ∧
    "ReadTimeout" ≠ "Timeout" :=
  ⟨rfl, by decide, rfl, by decide⟩

/-- Claim C4, amended: every error kind `get_html` reports is the
dynamic class name of the caught `requests.RequestException` —
`type(e).__name__` for a raised transport exception, and `"HTTPError"`
(the class `raise_for_status` raises) for a 400–599 status — not a
member of the spec's closed enumeration. -/
theorem claim_C4 (net : Net) (url k : String)
    (h : (get_html net url).error = some k) :
    (∃ e, net url = .exn e ∧ k = e.typeName) ∨
    (∃ s b, net url = .resp s b ∧ raisesForStatus s = true ∧ k = "HTTPError") := by
  cases hn : net url with
  | exn e =>
    simp only [get_html, hn, Option.some.injEq] at h
    exact .inl ⟨e, rfl, h.symm⟩
  | resp status body =>
    by_cases hs : raisesForStatus status = true
    · simp only [get_html, hn, if_pos hs, Option.some.injEq] at h
      exact .inr ⟨status, body, rfl, hs, h.symm⟩
    · simp only [get_html, hn, if_neg hs] at h
      simp at h

/-- Witness for the amended claim C4 on the all-404 network. -/
theorem claim_C4_witness :
    (get_html net404 "http://a").error = some "HTTPError" ∧
    ((∃ e, net404 "http://a" = .exn e ∧ "HTTPError" = e.typeName) ∨
     (∃ s b, net404 "http://a" = .resp s b ∧ raisesForStatus s = true ∧
        ("HTTPError" : String) = "HTTPError")) :=
  ⟨rfl, claim_C4 net404 "http://a" "HTTPError" rfl⟩

/-! ## Lemmas on the batch orchestrator (claims C1, C5, C10) -/

/-- Every result `process_url` returns normally is keyed by its own
input URL: the worker never touches any other URL. -/
theorem process_url_url (net : Net) (bs : Soup) (u : String) (r : UrlResult)
    (h : process_url net bs u = .ok r) : r.url = u := by
  unfold process_url at h
  by_cases he : ((get_html net u).error.getD "") ≠ ""
  · rw [if_pos he] at h
    simp only [Except.ok.injEq] at h
    rw [← h]
  · rw [if_neg he] at h
    cases hp : parse_html bs u (get_html net u).html with
    | error e => rw [hp] at h; simp [Except.map] at h
    | ok ls =>
      rw [hp] at h
      simp only [Except.map, Except.ok.injEq] at h
      rw [← h]

/-- A normally-returning batch collection has one entry per URL. -/
theorem collectMap_ok_length (f : String → Except String UrlResult) :
    ∀ (urls : List String) (rs : List UrlResult),
      collectMap f urls = .ok rs → rs.length = urls.length := by
  intro urls
  induction urls with
  | nil =>
    intro rs h
    simp only [collectMap, Except.ok.injEq] at h
    rw [← h]
    rfl
  | cons u us ih =>
    intro rs h
    simp only [collectMap] at h
    cases hf : f u with
    | error e => rw [hf] at h; simp at h
    | ok r =>
      rw [hf] at h
      cases hc : collectMap f us with
      | error e => rw [hc] at h; simp [Except.map] at h
      | ok rs0 =>
        rw [hc] at h
        simp only [Except.map, Except.ok.injEq] at h
        rw [← h]
        simp [ih rs0 hc]

/-- In a normally-returning batch collection, the `i`-th entry is the
result of the per-URL task on the `i`-th input URL. -/
theorem collectMap_ok_getElem (f : String → Except String UrlResult) :
    ∀ (urls : List String) (rs : List UrlResult),
      collectMap f urls = .ok rs →
      ∀ i (hi : i < urls.length),
        ∃ r, rs[i]? = some r ∧ f (urls.get ⟨i, hi⟩) = .ok r := by
  intro urls
  induction urls with
  | nil => intro rs h i hi; simp at hi
  | cons u us ih =>
    intro rs h i hi
    simp only [collectMap] at h
    cases hf : f u with
    | error e => rw [hf] at h; simp at h
    | ok r =>
      rw [hf] at h
      cases hc : collectMap f us with
      | error e => rw [hc] at h; simp [Except.map] at h
      | ok rs0 =>
        rw [hc] at h
        simp only [Except.map, Except.ok.injEq] at h
        rw [← h]
        cases i with
        | zero => exact ⟨r, by simp, hf⟩
        | succ n =>
          have hn : n < us.length := by simpa using hi
          obtain ⟨r0, hr1, hr2⟩ := ih rs0 hc n hn
          exact ⟨r0, by simpa using hr1, hr2⟩

/-- When every per-URL task returns normally, so does the collection. -/
theorem collectMap_all_ok (f : String → Except String UrlResult) :
    ∀ (urls : List String), (∀ u ∈ urls, isOkE (f u) = true) →
      ∃ rs, collectMap f urls = .ok rs := by
  intro urls
  induction urls with
  | nil => exact fun _ => ⟨[], rfl⟩
  | cons u us ih =>
    intro hall
    have hu := hall u (by simp)
    cases hf : f u with
    | error e => rw [hf] at hu; simp [isOkE] at hu
    | ok r =>
      obtain ⟨rs, hrs⟩ := ih (fun v hv => hall v (by simp [hv]))
      refine ⟨r :: rs, ?_⟩
      simp only [collectMap]
      rw [hf, hrs]
      rfl

/-- A task completion never changes the number of slots. -/
theorem poolWrite_length (f : String → Except String UrlResult)
    (urls : List String) (slots : List (Option (Except String UrlResult))) (i : Nat) :
    (poolWrite f urls slots i).length = slots.length := by
  unfold poolWrite
  cases urls[i]? <;> simp

/-- Any sequence of task completions preserves the number of slots. -/
theorem foldl_poolWrite_length (f : String → Except String UrlResult)
    (urls : List String) (order : List Nat) :
    ∀ slots, (order.foldl (poolWrite f urls) slots).length = slots.length := by
  induction order with
  | nil => intro slots; rfl
  | cons j rest ih =>
    intro slots
    rw [List.foldl_cons, ih, poolWrite_length]

/-- After the completions listed in `order`, slot `i` holds the task
result for `urls[i]` if task `i` completed, and its prior content
otherwise — independently of where in `order` the completion sits. -/
theorem foldl_poolWrite_getElem (f : String → Except String UrlResult)
    (urls : List String) (order : List Nat) :
    ∀ (slots : List (Option (Except String UrlResult))), slots.length = urls.length →
    ∀ i (hi : i < urls.length),
      (order.foldl (poolWrite f urls) slots)[i]? =
        if i ∈ order then some (some (f (urls.get ⟨i, hi⟩))) else slots[i]? := by
  induction order with
  | nil => intro slots hlen i hi; simp
  | cons j rest ih =>
    intro slots hlen i hi
    rw [List.foldl_cons,
      ih (poolWrite f urls slots j) (by rw [poolWrite_length]; exact hlen) i hi]
    by_cases hmem : i ∈ rest
    · rw [if_pos hmem, if_pos (by simp [hmem])]
    · rw [if_neg hmem]
      by_cases hij : i = j
      · subst hij
        rw [if_pos (by simp)]
        unfold poolWrite
        have hg : urls[i]? = some (urls.get ⟨i, hi⟩) := by
          rw [List.getElem?_eq_getElem hi]
          simp [List.get_eq_getElem]
        rw [hg]
        exact List.getElem?_set_eq_of_lt _ (by rw [hlen]; exact hi)
      · rw [if_neg (by simp [hij, hmem])]
        unfold poolWrite
        cases urls[j]? with
        | none => rfl
        | some u => exact List.getElem?_set_ne (fun hh => hij hh.symm)

/-- Completion-order independence: whatever order the tasks finish in
(any permutation of the task indices), the slots end up holding exactly
the per-URL results, in input order. -/
theorem runPool_eq_map (f : String → Except String UrlResult)
    (urls : List String) (order : List Nat)
    (hperm : order.Perm (List.range urls.length)) :
    runPool f urls order = urls.map (fun u => some (f u)) := by
  apply List.ext_getElem?
  intro i
  by_cases hi : i < urls.length
  · rw [runPool, foldl_poolWrite_getElem f urls order _ (by simp) i hi,
      if_pos (hperm.mem_iff.mpr (List.mem_range.mpr hi)), List.getElem?_map,
      List.getElem?_eq_getElem hi]
    simp [List.get_eq_getElem]
  · rw [List.getElem?_eq_none (l := runPool f urls order)
        (by rw [runPool, foldl_poolWrite_length]; simp; omega),
      List.getElem?_eq_none (by simp; omega)]

/-- Reading fully-written slots in input order is exactly the
input-order iteration of `executor.map`. -/
theorem gather_map (f : String → Except String UrlResult) :
    ∀ (urls : List String),
      gather (urls.map (fun u => some (f u))) = collectMap f urls := by
  intro urls
  induction urls with
  | nil => rfl
  | cons u us ih =>
    simp only [List.map_cons]
    cases hf : f u with
    | error e => simp only [gather, collectMap, hf]
    | ok r => simp only [gather, collectMap, hf, ih]

/-- Claim C1, amended: PROVIDED every per-URL unit of work returns
normally (the extractor can raise `AttributeError` on pathological
HTML — see the counterexample), `extract_data_from_urls` returns, for
every positive `max_workers` and independently of the order in which
the per-URL tasks complete (any permutation of the task indices), one
list with exactly one entry per input URL, the `i`-th entry keyed by
`urls[i]`. -/
theorem claim_C1 (net : Net) (bs : Soup) (urls : List String) (w : Int) (order : List Nat)
    (hw : 0 < w) (hperm : order.Perm (List.range urls.length))
    (hok : ∀ u ∈ urls, isOkE (process_url net bs u) = true) :
    ∃ rs : List UrlResult,
      extract_data_from_urls net bs urls w = .ok rs ∧
      gather (runPool (process_url net bs) urls order) = .ok rs ∧
      rs.length = urls.length ∧
      ∀ i (hi : i < urls.length), ∃ r, rs[i]? = some r ∧ r.url = urls.get ⟨i, hi⟩ := by
  obtain ⟨rs, hrs⟩ := collectMap_all_ok (process_url net bs) urls hok
  refine ⟨rs, ?_, ?_, collectMap_ok_length _ urls rs hrs, ?_⟩
  · unfold extract_data_from_urls
    rw [if_neg (by omega)]
    exact hrs
  · rw [runPool_eq_map _ _ _ hperm, gather_map]
    exact hrs
  · intro i hi
    obtain ⟨r, h1, h2⟩ := collectMap_ok_getElem _ urls rs hrs i hi
    exact ⟨r, h1, process_url_url net bs _ r h2⟩

/-- Witness for the amended claim C1: a two-URL batch (one timing out,
one succeeding) with the tasks completing in reverse input order. -/
theorem claim_C1_witness :
    ∃ rs : List UrlResult,
      extract_data_from_urls netAB bsEmpty ["a", "b"] 5 = .ok rs ∧
      gather (runPool (process_url netAB bsEmpty) ["a", "b"] [1, 0]) = .ok rs ∧
      rs.length = (["a", "b"] : List String).length ∧
      ∀ i (hi : i < (["a", "b"] : List String).length),
        ∃ r, rs[i]? = some r ∧ r.url = (["a", "b"] : List String).get ⟨i, hi⟩ :=
  claim_C1 netAB bsEmpty ["a", "b"] 5 [1, 0] (by decide) (by decide) (by decide)

/-- Counterexample to claim C1 as stated: on a network answering 200
with a body that parses to a keyword anchor outside any `li`, the
single-URL batch raises `AttributeError` instead of returning a
one-element sequence. -/
theorem claim_C1_counterexample :
    extract_data_from_urls netH bsNoLi ["u"] 5 = .error "AttributeError" := rfl

/-- Claim C5, amended: in any two NORMALLY-RETURNING batches, an output
entry depends only on its own input URL — the same URL appearing (at
any position) in either batch, over the same network, with any worker
counts and any accompanying (failing or succeeding) URLs, gets the
identical result.  The accompanying counterexample shows the
unconditional claim fails: a companion whose extraction crashes aborts
the whole batch, removing the other URL's result too. -/
theorem claim_C5 (net : Net) (bs : Soup) (w₁ w₂ : Int) (urls₁ urls₂ : List String)
    (rs₁ rs₂ : List UrlResult) (i j : Nat)
    (h₁ : extract_data_from_urls net bs urls₁ w₁ = .ok rs₁)
    (h₂ : extract_data_from_urls net bs urls₂ w₂ = .ok rs₂)
    (hi : i < urls₁.length) (hj : j < urls₂.length)
    (heq : urls₁.get ⟨i, hi⟩ = urls₂.get ⟨j, hj⟩) :
    ∃ r, rs₁[i]? = some r ∧ rs₂[j]? = some r := by
  unfold extract_data_from_urls at h₁ h₂
  by_cases hw₁ : w₁ ≤ 0
  · rw [if_pos hw₁] at h₁
    exact absurd h₁ (by simp)
  · rw [if_neg hw₁] at h₁
    by_cases hw₂ : w₂ ≤ 0
    · rw [if_pos hw₂] at h₂
      exact absurd h₂ (by simp)
    · rw [if_neg hw₂] at h₂
      obtain ⟨r₁, ha1, ha2⟩ := collectMap_ok_getElem _ urls₁ rs₁ h₁ i hi
      obtain ⟨r₂, hb1, hb2⟩ := collectMap_ok_getElem _ urls₂ rs₂ h₂ j hj
      rw [heq] at ha2
      rw [ha2] at hb2
      simp only [Except.ok.injEq] at hb2
      exact ⟨r₁, ha1, by rw [hb1, hb2]⟩

/-- Witness for claim C5: the URL `"b"` gets the result
`{b: []}` both alone and next to the always-timing-out `"a"`. -/
theorem claim_C5_witness :
    extract_data_from_urls netAB bsEmpty ["b"] 5 = .ok [⟨"b", .links []⟩] ∧
    extract_data_from_urls netAB bsEmpty ["a", "b"] 3 =
      .ok [⟨"a", .failure "ConnectTimeout"⟩, ⟨"b", .links []⟩] ∧
    ∃ r, ([⟨"b", Outcome.links []⟩] : List UrlResult)[0]? = some r ∧
      ([⟨"a", Outcome.failure "ConnectTimeout"⟩, ⟨"b", Outcome.links []⟩] : List UrlResult)[1]? = some r :=
  ⟨rfl, rfl,
    claim_C5 netAB bsEmpty 5 3 ["b"] ["a", "b"]
      [⟨"b", .links []⟩] [⟨"a", .failure "ConnectTimeout"⟩, ⟨"b", .links []⟩]
      0 1 rfl rfl (by decide) (by decide) rfl⟩

/-- Counterexample to claim C5 as stated: the URL `"b"` alone produces
the result `{b: []}`, but in a batch with the companion `"c"` — whose
response body parses to a keyword anchor outside any `li` — the whole
call raises `AttributeError` and no result for `"b"` is produced, so
`"c"`'s failure does affect `"b"`'s outcome. -/
theorem claim_C5_counterexample :
    extract_data_from_urls netCB bsNoLi ["b"] 5 = .ok [⟨"b", .links []⟩] ∧
    extract_data_from_urls netCB bsNoLi ["c", "b"] 5 = .error "AttributeError" :=
  ⟨rfl, rfl⟩

/-- Claim C10: the empty batch returns normally with the empty list for
every positive worker count (the `ValueError` guard does not fire and
the map over no URLs is empty). -/
theorem claim_C10 (net : Net) (bs : Soup) (w : Int) (hw : 0 < w) :
    extract_data_from_urls net bs [] w = .ok [] := by
  unfold extract_data_from_urls
  rw [if_neg (by omega)]
  rfl

/-- Witness for claim C10 at `w = 1`. -/
theorem claim_C10_witness :
    (0 : Int) < 1 ∧ extract_data_from_urls netH bsEmpty [] 1 = .ok [] :=
  ⟨by decide, claim_C10 netH bsEmpty 1 (by decide)⟩

/-! ## The extractor (claims C2, C8, C9) -/

/-- Claim C2's failing input (code bug): on HTML whose first
keyword-matching anchor has no `li` ancestor (and no services `div` is
present), `parse_html` raises `AttributeError` — `find_parent('li')`
returns `None` and the unguarded `None.find_all` call crashes —
instead of returning a (possibly empty) list of links. -/
theorem claim_C2 :
    parse_html bsNoLi "http://a" (some "<p><a>विद्युतीय सेवा</a></p>") =
      .error "AttributeError" := rfl

/-- Everything `find_all('a', href=True)` collects below a node is an
anchor element carrying an `href` attribute. -/
theorem anchorsIn_spec (n : Node) :
    ∀ a ∈ anchorsIn n, tagOf a = "a" ∧ (hrefAttr a).isSome = true := by
  refine @Node.rec
    (fun n => ∀ a ∈ anchorsIn n, tagOf a = "a" ∧ (hrefAttr a).isSome = true)
    (fun l => ∀ a ∈ anchorsInForest l, tagOf a = "a" ∧ (hrefAttr a).isSome = true)
    ?_ ?_ ?_ ?_ n
  · intro s a ha
    simp [anchorsIn] at ha
  · intro tag idAttr href cs ih a ha
    rw [anchorsIn] at ha
    rcases List.mem_append.mp ha with h1 | h2
    · by_cases hcond : tag = "a" ∧ href.isSome = true
      · rw [if_pos hcond] at h1
        simp only [List.mem_singleton] at h1
        subst h1
        exact hcond
      · rw [if_neg hcond] at h1
        simp at h1
    · exact ih a h2
  · intro a ha
    simp [anchorsInForest] at ha
  · intro n ns ihn ihl a ha
    rw [anchorsInForest] at ha
    rcases List.mem_append.mp ha with h1 | h2
    · exact ihn a h1
    · exact ihl a h2

/-- `anchorsIn_spec` for a whole forest. -/
theorem anchorsInForest_spec (l : List Node) :
    ∀ a ∈ anchorsInForest l, tagOf a = "a" ∧ (hrefAttr a).isSome = true := by
  induction l with
  | nil => intro a ha; simp [anchorsInForest] at ha
  | cons n ns ih =>
    intro a ha
    rw [anchorsInForest] at ha
    rcases List.mem_append.mp ha with h1 | h2
    · exact anchorsIn_spec n a h1
    · exact ih a h2

/-- Every anchor harvested from a region is an `href`-carrying anchor
element. -/
theorem regionAnchors_spec (region : Node) :
    ∀ a ∈ regionAnchors region, tagOf a = "a" ∧ (hrefAttr a).isSome = true := by
  cases region with
  | text s => intro a ha; simp [regionAnchors] at ha
  | elem tag idAttr href cs => exact fun a ha => anchorsInForest_spec cs a ha

/-- Membership in a harvest: each produced link comes from an anchor of
the region that passed both non-emptiness filters. -/
theorem harvest_mem (base : String) (region : Node) (l : ServiceLink)
    (hl : l ∈ harvest base region) :
    ∃ a, a ∈ regionAnchors region ∧ getTextStrip a ≠ "" ∧ stripWS (hrefOf a) ≠ "" ∧
      l = ⟨getTextStrip a, normalize_url (stripWS (hrefOf a)) base⟩ := by
  unfold harvest at hl
  obtain ⟨a, ha, hmk⟩ := List.mem_map.mp hl
  have hf := List.mem_filter.mp ha
  have hcond := of_decide_eq_true hf.2
  exact ⟨a, hf.1, hcond.1, hcond.2, hmk.symm⟩

/-- Claim C8: every link `parse_html` returns has a nonempty
`service_name` (the anchor's whitespace-trimmed visible text) and was
built by normalizing a nonempty trimmed `href` of an actual anchor of
the resolved region; anchors failing either check contribute nothing. -/
theorem claim_C8 (base : String) (doc : List Node) (links : List ServiceLink)
    (h : parse_doc base doc = .ok links) :
    ∀ l ∈ links, l.service_name ≠ "" ∧
      ∃ a h₀, tagOf a = "a" ∧ hrefAttr a = some h₀ ∧ stripWS h₀ ≠ "" ∧
        l.service_name = getTextStrip a ∧
        l.link_of_service = normalize_url (stripWS h₀) base := by
  unfold parse_doc at h
  cases hr : resolveRegion doc with
  | error e => rw [hr] at h; simp [Except.map] at h
  | ok region? =>
    rw [hr] at h
    simp only [Except.map, Except.ok.injEq] at h
    cases region? with
    | none =>
      rw [← h]
      intro l hl
      simp at hl
    | some region =>
      rw [← h]
      intro l hl
      obtain ⟨a, ha, ht, hh, hl2⟩ := harvest_mem base region l hl
      have hspec := regionAnchors_spec region a ha
      obtain ⟨h₀, hh₀⟩ := Option.isSome_iff_exists.mp hspec.2
      have hhref : hrefOf a = h₀ := by unfold hrefOf; rw [hh₀]; rfl
      subst hl2
      refine ⟨ht, a, h₀, hspec.1, hh₀, ?_, rfl, ?_⟩
      · rw [← hhref]; exact hh
      · rw [hhref]

/-- Witness for claim C8 on the spec's id-marker scenario document:
the anchor with whitespace-only `href` is dropped, and the surviving
link satisfies every clause of the claim. -/
theorem claim_C8_witness :
    parse_doc "https://example.gov/en" specMarkerDoc =
      .ok [⟨"Pay Tax", "https://example.gov/pay-tax"⟩] ∧
    ∀ l ∈ ([⟨"Pay Tax", "https://example.gov/pay-tax"⟩] : List ServiceLink),
      l.service_name ≠ "" ∧
      ∃ a h₀, tagOf a = "a" ∧ hrefAttr a = some h₀ ∧ stripWS h₀ ≠ "" ∧
        l.service_name = getTextStrip a ∧
        l.link_of_service = normalize_url (stripWS h₀) "https://example.gov/en" :=
  ⟨rfl, claim_C8 "https://example.gov/en" specMarkerDoc _ rfl⟩

/-- Claim C9: with no id marker present, the region escalates from the
first keyword-matching anchor to its enclosing `li`, and exactly
`Service X` is harvested with its normalized URL; the keyword anchor is
excluded only for lack of an `href` — given one (`kwLiDocHref`), it is
harvested too, ahead of `Service X` in document order. -/
theorem claim_C9 (base : String) (bs bs2 : Soup) (s s2 : String)
    (h1 : s ≠ "") (h2 : bs s = kwLiDoc) (h3 : s2 ≠ "") (h4 : bs2 s2 = kwLiDocHref) :
    parse_html bs base (some s) = .ok [⟨"Service X", normalize_url "/x" base⟩] ∧
    parse_html bs2 base (some s2) =
      .ok [⟨"विद्युतीय सेवा", normalize_url "/y" base⟩,
           ⟨"Service X", normalize_url "/x" base⟩] := by
  constructor
  · unfold parse_html
    rw [if_neg (by simpa using h1), Option.getD_some, h2]
    rfl
  · unfold parse_html
    rw [if_neg (by simpa using h3), Option.getD_some, h4]
    rfl

/-- Witness for claim C9 on concrete soups for both documents. -/
theorem claim_C9_witness :
    parse_html (fun _ => kwLiDoc) "http://base" (some "h") =
      .ok [⟨"Service X", normalize_url "/x" "http://base"⟩] ∧
    parse_html (fun _ => kwLiDocHref) "http://base" (some "h") =
      .ok [⟨"विद्युतीय सेवा", normalize_url "/y" "http://base"⟩,
           ⟨"Service X", normalize_url "/x" "http://base"⟩] :=
  claim_C9 "http://base" (fun _ => kwLiDoc) (fun _ => kwLiDocHref) "h" "h"
    (by decide) rfl (by decide) rfl
